import Mathlib

/-!
# Verification of the `currency-service` shared mutable state core

Shallow embedding of `src/app/currency.py` and `src/app/state.py`:

* Python `Decimal` values are modelled by their exact rational value (`Dec := ℚ`).
  Arithmetic under the default `decimal` context rounds every result to 28
  significant digits with round-half-even; `round28` implements that rounding
  and `dadd`/`dsub`/`dmul`/`ddiv` model `Decimal.__add__` etc.  Construction,
  storage and comparisons of `Decimal`s are exact and need no rounding.
  (The exact rational operations are spelled out on numerators/denominators via
  `Rat.divInt` so that every definition evaluates by kernel reduction; the
  lemmas `qadd_eq`/`qmul_eq`/`qdiv_eq` identify them with `+`/`*`/`/` on `ℚ`.)
* Exceptions are modelled by `Except CurrErr`; a Python method that mutates
  its object is modelled as a function returning `Except CurrErr Unit × State`,
  the second component being the state after the call (Python state mutated
  before an exception is raised survives the exception).
* Python `dict[str, ...]` is modelled by an association list keeping insertion
  order (`alookup` = `dict.get`, `aupdate` = `dict.__setitem__`: replace in
  place when the key exists, append otherwise).
-/

namespace CurrencyService

/-- The exact value of a Python `Decimal`. -/
abbrev Dec := ℚ

/-- The exception classes of `src/app/currency.py` (`CurrencyError` subclasses),
plus `divisionByZero` for the `decimal.DivisionByZero` a zero divisor would raise.
Exception messages are display-only and are not modelled. -/
inductive CurrErr where
  | invalidValue
  | invalidOperation
  | unknownCurrency
  | invalidExchangeRate
  | missingExchangeRate
  | divisionByZero
deriving DecidableEq, Repr

instance exceptDecEq {ε α : Type} [DecidableEq ε] [DecidableEq α] :
    DecidableEq (Except ε α) := fun
  | .error e, .error f =>
    if h : e = f then .isTrue (by rw [h]) else .isFalse (by intro c; cases c; exact h rfl)
  | .ok a, .ok b =>
    if h : a = b then .isTrue (by rw [h]) else .isFalse (by intro c; cases c; exact h rfl)
  | .error _, .ok _ => .isFalse (by intro c; cases c)
  | .ok _, .error _ => .isFalse (by intro c; cases c)

theorem except_ok_bind {α β : Type} (a : α) (f : α → Except CurrErr β) :
    (Except.ok a : Except CurrErr α) >>= f = f a := rfl

theorem except_error_bind {α β : Type} (e : CurrErr) (f : α → Except CurrErr β) :
    (Except.error e : Except CurrErr α) >>= f = Except.error e := rfl

/-! ## Exact rational arithmetic, spelled out so that it kernel-reduces -/

/-- Exact rational addition (`Rat.add` is `@[irreducible]`, so we spell it out;
`qadd_eq` below shows it is `+`). -/
def qadd (a b : ℚ) : ℚ := Rat.divInt (a.num * b.den + b.num * a.den) (a.den * b.den)

/-- Exact rational subtraction; `qsub_eq` shows it is `-`. -/
def qsub (a b : ℚ) : ℚ := qadd a (-b)

/-- Exact rational multiplication; `qmul_eq` shows it is `*`. -/
def qmul (a b : ℚ) : ℚ := Rat.divInt (a.num * b.num) (a.den * b.den)

/-- Exact rational division; `qdiv_eq` shows it is `/`. -/
def qdiv (a b : ℚ) : ℚ := Rat.divInt (a.num * b.den) (a.den * b.num)

theorem qadd_eq (a b : ℚ) : qadd a b = a + b := by
  have ha : ((a.den : ℚ)) ≠ 0 := Nat.cast_ne_zero.mpr a.den_nz
  have hb : ((b.den : ℚ)) ≠ 0 := Nat.cast_ne_zero.mpr b.den_nz
  rw [qadd, Rat.divInt_eq_div]
  push_cast
  conv_rhs => rw [← Rat.num_div_den a, ← Rat.num_div_den b]
  field_simp

theorem qsub_eq (a b : ℚ) : qsub a b = a - b := by
  rw [qsub, qadd_eq, sub_eq_add_neg]

theorem qmul_eq (a b : ℚ) : qmul a b = a * b := by
  have ha : ((a.den : ℚ)) ≠ 0 := Nat.cast_ne_zero.mpr a.den_nz
  have hb : ((b.den : ℚ)) ≠ 0 := Nat.cast_ne_zero.mpr b.den_nz
  rw [qmul, Rat.divInt_eq_div]
  push_cast
  conv_rhs => rw [← Rat.num_div_den a, ← Rat.num_div_den b]
  field_simp

theorem qdiv_eq (a b : ℚ) : qdiv a b = a / b := by
  rcases eq_or_ne b 0 with hb | hb
  · subst hb
    simp [qdiv, Rat.divInt_eq_div]
  · have ha : ((a.den : ℚ)) ≠ 0 := Nat.cast_ne_zero.mpr a.den_nz
    have hbd : ((b.den : ℚ)) ≠ 0 := Nat.cast_ne_zero.mpr b.den_nz
    have hbn : ((b.num : ℚ)) ≠ 0 := Int.cast_ne_zero.mpr (Rat.num_ne_zero.mpr hb)
    rw [qdiv, Rat.divInt_eq_div]
    push_cast
    conv_rhs => rw [← Rat.num_div_den a, ← Rat.num_div_den b]
    field_simp

/-! ## The default `decimal` context: 28 significant digits, round-half-even -/

/-- Number of decimal digits of `n` (1 for `n = 0`); the first argument is
fuel, always called with enough of it. -/
def digitsAux : ℕ → ℕ → ℕ
  | 0, _ => 1
  | f + 1, n => if n < 10 then 1 else digitsAux f (n / 10) + 1

/-- Number of decimal digits of a natural number. -/
def nDigits (n : ℕ) : ℕ := digitsAux n n

/-- `⌊log₁₀ q⌋` for `q > 0` (junk value `0` for `q ≤ 0`), computed by comparing
the numerator and denominator digit counts and correcting by one. -/
def floorLog10 (q : ℚ) : ℤ :=
  if q.num ≤ 0 then 0
  else
    let c : ℤ := (nDigits q.num.toNat : ℤ) - (nDigits q.den : ℤ)
    -- whether q < 10 ^ c, by cross-multiplying with the denominator
    let lt : Bool :=
      match c with
      | .ofNat k => q.num < (q.den : ℤ) * ((10 ^ k : ℕ) : ℤ)
      | .negSucc k => q.num * ((10 ^ (k + 1) : ℕ) : ℤ) < (q.den : ℤ)
    if lt then c - 1 else c

/-- Round a rational to the nearest integer, ties to even
(`decimal`'s default `ROUND_HALF_EVEN`).  `f` is the floor of `q` (the
denominator of `ℚ` is positive, so flooring division gives it) and the
fractional part `q - f` is compared with `1/2` by cross-multiplication. -/
def roundHalfEvenInt (q : ℚ) : ℤ :=
  let f := Int.fdiv q.num q.den
  let t := 2 * (q.num - f * (q.den : ℤ))
  if t < (q.den : ℤ) then f
  else if (q.den : ℤ) < t then f + 1
  else if f % 2 = 0 then f else f + 1

/-- Round a positive rational to 28 significant decimal digits, half-even:
scale by `10 ^ (27 - ⌊log₁₀ q⌋)` to land in `[10^27, 10^28)`, round to an
integer, scale back. -/
def round28Pos (q : ℚ) : ℚ :=
  match floorLog10 q - 27 with
  | .ofNat k =>
    Rat.divInt (roundHalfEvenInt (Rat.divInt q.num ((q.den : ℤ) * ((10 ^ k : ℕ) : ℤ))) *
      ((10 ^ k : ℕ) : ℤ)) 1
  | .negSucc k =>
    Rat.divInt (roundHalfEvenInt (Rat.divInt (q.num * ((10 ^ (k + 1) : ℕ) : ℤ)) (q.den : ℤ)))
      ((10 ^ (k + 1) : ℕ) : ℤ)

/-- Round a rational to 28 significant decimal digits, half-even: what the
default `decimal` context does to the exact result of every arithmetic
operation. -/
def round28 (q : ℚ) : ℚ :=
  if q.num = 0 then 0
  else if q.num < 0 then -round28Pos (-q)
  else round28Pos q

/-- `Decimal.__add__` under the default context: exact sum, then rounding. -/
def dadd (a b : Dec) : Dec := round28 (qadd a b)

/-- `Decimal.__sub__` under the default context. -/
def dsub (a b : Dec) : Dec := round28 (qsub a b)

/-- `Decimal.__mul__` under the default context. -/
def dmul (a b : Dec) : Dec := round28 (qmul a b)

/-- `Decimal.__truediv__` under the default context (callers check for a zero
divisor; `ddiv` itself is total with junk value `0` there). -/
def ddiv (a b : Dec) : Dec := round28 (qdiv a b)

theorem dadd_eq (a b : Dec) : dadd a b = round28 (a + b) := by rw [dadd, qadd_eq]

theorem dsub_eq (a b : Dec) : dsub a b = round28 (a - b) := by rw [dsub, qsub_eq]

theorem dmul_eq (a b : Dec) : dmul a b = round28 (a * b) := by rw [dmul, qmul_eq]

theorem ddiv_eq (a b : Dec) : ddiv a b = round28 (a / b) := by rw [ddiv, qdiv_eq]

/-! ## Python `dict[str, Decimal]` as an insertion-ordered association list -/

/-- `dict.get k`: first value bound to `k`. -/
def alookup : List (String × Dec) → String → Option Dec
  | [], _ => none
  | (k, v) :: t, n => if k = n then some v else alookup t n

/-- `dict[k] = v`: replace the binding in place if `k` is present
(keeping its position), append it otherwise. -/
def aupdate : List (String × Dec) → String → Dec → List (String × Dec)
  | [], n, v => [(n, v)]
  | (k, w) :: t, n, v => if k = n then (n, v) :: t else (k, w) :: aupdate t n v

/-! ## `CurrencyManager` (the balance ledger, `src/app/currency.py` lines 207-310)

Every tracked currency is a `BaseCurrency` subclass whose state is just its
non-negative `Decimal` value, so the manager's `__currencies` dict is modelled
as `name → value`.  `BaseCurrency.__init__` (lines 73-81) raises
`InvalidCurrencyValue` for a negative value; `__iadd__` never fails on
non-negative operands; `__isub__` (lines 181-191) raises
`InvalidCurrencyOperation` when the subtrahend exceeds the minuend. -/

/-- The manager's `__currencies` mapping. -/
abbrev Ledger := List (String × Dec)

/-- `CurrencyManager.get_balance` / `_get_currency` lookup. -/
def get_balance (m : Ledger) (n : String) : Except CurrErr Dec :=
  match alookup m n with
  | none => .error .unknownCurrency
  | some b => .ok b

/-- `CurrencyManager.add_balance` (lines 263-272).  NOTE: the guard
`if value <= MIN_AMOUNT:` at line 267 only *constructs*
`InvalidCurrencyValue` and never raises it, so a non-positive `value` passes;
only `curr_type(value)` (i.e. `BaseCurrency.__init__`) then rejects a
strictly negative `value`. -/
def add_balance (m : Ledger) (n : String) (v : Dec) : Except CurrErr Unit × Ledger :=
  match alookup m n with
  | none => (.error .unknownCurrency, m)
  | some b =>
    if v < 0 then (.error .invalidValue, m)
    else (.ok (), aupdate m n (dadd b v))

/-- `CurrencyManager.remove_balance` (lines 274-288).  The guards at lines
278 and 285-286 construct their exceptions without raising them; a negative
`value` is rejected by `curr_type(value)` and an excessive one by
`BaseCurrency.__isub__`. -/
def remove_balance (m : Ledger) (n : String) (v : Dec) : Except CurrErr Unit × Ledger :=
  match alookup m n with
  | none => (.error .unknownCurrency, m)
  | some b =>
    if v < 0 then (.error .invalidValue, m)
    else if b < v then (.error .invalidOperation, m)
    else (.ok (), aupdate m n (dsub b v))

/-- `CurrencyManager.set_balance` (lines 290-299).  The guard at line 294-295
constructs its exception without raising it; a negative `value` is rejected by
`curr_type(value)`, and the new currency object is stored with the exact
(unrounded) value. -/
def set_balance (m : Ledger) (n : String) (v : Dec) : Except CurrErr Unit × Ledger :=
  match alookup m n with
  | none => (.error .unknownCurrency, m)
  | some _ =>
    if v < 0 then (.error .invalidValue, m)
    else (.ok (), aupdate m n v)

/-! ## `CurrencyExchanger` (the rate table, `src/app/currency.py` lines 313-402) -/

/-- The currency types registered in `_currency_type_map` when
`src/app/currency.py` has been imported: the module-level classes
`RUB`, `USD` and `EUR` (lines 405-412). -/
def registeredCurrencies : List String := ["RUB", "USD", "EUR"]

/-- The exchanger's state: `__base_currency` and the `__rates` dict. -/
structure Exchanger where
  base : String
  rates : List (String × Dec)
deriving DecidableEq, Repr

/-- `CurrencyExchanger.set_rate` (lines 345-352): raises
`InvalidExchangeRate` for `rate <= 0`, otherwise stores the rate under the
given name (any string key is accepted). -/
def set_rate (ex : Exchanger) (n : String) (r : Dec) : Except CurrErr Unit × Exchanger :=
  if r ≤ 0 then (.error .invalidExchangeRate, ex)
  else (.ok (), { ex with rates := aupdate ex.rates n r })

/-- `CurrencyExchanger.__init__` (lines 322-337): raises `UnknownCurrency`
unless the base currency name is a registered currency type, then starts from
an empty rate dict and calls `set_rate(base_currency_name, Decimal("1.0"))`. -/
def Exchanger.init (base : String) : Except CurrErr Exchanger :=
  if base ∈ registeredCurrencies then
    .ok (set_rate { base := base, rates := [] } base 1).2
  else .error .unknownCurrency

/-- `CurrencyExchanger.set_rates` (lines 354-359): a plain loop of
`set_rate` calls with no exception handling, so the first failing entry
raises out of the loop; entries already applied stay applied. -/
def set_rates (ex : Exchanger) : List (String × Dec) → Except CurrErr Unit × Exchanger
  | [] => (.ok (), ex)
  | (n, r) :: t =>
    match set_rate ex n r with
    | (.ok _, ex') => set_rates ex' t
    | (.error e, ex') => (.error e, ex')

/-- `CurrencyExchanger.get_rate` (lines 361-365). -/
def get_rate (ex : Exchanger) (n : String) : Option Dec := alookup ex.rates n

/-- `CurrencyExchanger.get_rate_unsafe` (lines 367-375): raises
`MissingExchangeRate` when the rate is absent. -/
def get_rate_unsafe (ex : Exchanger) (n : String) : Except CurrErr Dec :=
  match get_rate ex n with
  | none => .error .missingExchangeRate
  | some r => .ok r

/-- `CurrencyExchanger.get_cross_rate_unsafe` (lines 377-382):
`get_rate_unsafe(in) / get_rate_unsafe(out)`; a zero divisor would raise
`decimal.DivisionByZero`. -/
def get_cross_rate_unsafe (ex : Exchanger) (a b : String) : Except CurrErr Dec := do
  let ra ← get_rate_unsafe ex a
  let rb ← get_rate_unsafe ex b
  if rb = 0 then .error .divisionByZero else .ok (ddiv ra rb)

/-- `CurrencyExchanger.exchange` (lines 394-402): raises
`InvalidCurrencyValue` for a negative value, otherwise multiplies by the
cross rate. -/
def exchange (ex : Exchanger) (inN : String) (v : Dec) (outN : String) : Except CurrErr Dec :=
  if v < 0 then .error .invalidValue
  else do
    let r ← get_cross_rate_unsafe ex inN outN
    .ok (dmul v r)

/-! ## `State` (`src/app/state.py`)

`State` holds one manager and one exchanger behind an `asyncio.Lock`; every
operation runs start-to-finish under the lock, so each is modelled as a plain
function on the `(Ledger, Exchanger)` state.  The `*_multi` operations are
bare `for` loops over the mapping's items with no exception handling. -/

/-- The loop shared by `State.set_balance_multi` / `add_balance_multi` /
`remove_balance_multi` (state.py lines 73-109): apply `f` to the entries in
mapping order; an exception from one entry propagates out of the loop,
keeping every earlier entry's mutation. -/
def multiApply (f : Ledger → String → Dec → Except CurrErr Unit × Ledger)
    (st : Ledger) : List (String × Dec) → Except CurrErr Unit × Ledger
  | [] => (.ok (), st)
  | (n, v) :: t =>
    match f st n v with
    | (.ok _, st') => multiApply f st' t
    | (.error e, st') => (.error e, st')

/-- `State.set_balance_multi` (state.py lines 73-79). -/
def set_balance_multi (st : Ledger) (data : List (String × Dec)) :
    Except CurrErr Unit × Ledger :=
  multiApply set_balance st data

/-- `State.add_balance_multi` (state.py lines 88-94). -/
def add_balance_multi (st : Ledger) (data : List (String × Dec)) :
    Except CurrErr Unit × Ledger :=
  multiApply add_balance st data

/-- `State.remove_balance_multi` (state.py lines 103-109). -/
def remove_balance_multi (st : Ledger) (data : List (String × Dec)) :
    Except CurrErr Unit × Ledger :=
  multiApply remove_balance st data

/-! ## The report generator (`State._generate_report`, state.py lines 130-172) -/

/-- Display form of a `Decimal` value.  Python renders via `Decimal.__str__`,
whose exact spelling (exponents, trailing zeros) depends on representation
details below the value level; no claim depends on the glyphs, only on which
lines appear, so a simple value-level rendering is used. -/
def decStr (q : Dec) : String :=
  if q.den = 1 then toString q.num else toString q.num ++ "/" ++ toString q.den

/-- One `f"{k.lower()}: {v}\n"` balance line (state.py line 138). -/
def balanceLine (k : String) (v : Dec) : String :=
  k.toLower ++ ": " ++ decStr v ++ "\n"

/-- The balance section of the report (state.py lines 136-138). -/
def balanceLines (bd : Ledger) : List String :=
  bd.map fun p => balanceLine p.1 p.2

/-- Modelled from the spec: `CurrencyExchanger.get_all_cross_rate`, called at
state.py line 142 but absent from the source.  Per spec §4.5 the report emits
one line per ordered pair of distinct currencies for which a rate exists for
both, with value `cross_rate(a, b)`; pairs with a missing rate are omitted,
never raised on.  So the mapping contains one entry per ordered pair of
distinct keys of the rate table. -/
def get_all_cross_rate (ex : Exchanger) : List ((String × String) × Dec) :=
  ex.rates.flatMap fun p =>
    ex.rates.filterMap fun q =>
      if p.1 ≠ q.1 then some ((p.1, q.1), ddiv p.2 q.2) else none

/-- One `f"{k[0].lower()}-{k[1].lower()}: {v}\n"` cross-rate line
(state.py line 144). -/
def crossLine (a b : String) (v : Dec) : String :=
  a.toLower ++ "-" ++ b.toLower ++ ": " ++ decStr v ++ "\n"

/-- The cross-rate section of the report (state.py lines 142-144). -/
def crossLines (ex : Exchanger) : List String :=
  (get_all_cross_rate ex).map fun e => crossLine e.1.1 e.1.2 e.2

/-- The inner loop of the sum step (state.py lines 150-165): starting from
currency `k`'s own balance, add the converted balance of every other tracked
currency; a `MissingExchangeRate` from `exchange` is swallowed (only logged)
and that term is skipped; any other exception propagates. -/
def sumFor (ex : Exchanger) (k : String) : Dec → Ledger → Except CurrErr Dec
  | v, [] => .ok v
  | v, (kk, vv) :: t =>
    if kk = k then sumFor ex k v t
    else
      match exchange ex kk vv k with
      | .ok d => sumFor ex k (dadd v d) t
      | .error .missingExchangeRate => sumFor ex k v t
      | .error e => .error e

/-- The outer loop of the sum step (state.py lines 149-170): one
`f" {v} {k.lower()}"` piece per tracked currency, with a `" /"` separator
after every piece but the last (`total` is `len(balance_data)`). -/
def sumPiecesAux (ex : Exchanger) (bd : Ledger) (total : ℕ) :
    ℕ → Ledger → Except CurrErr (List String)
  | _, [] => .ok []
  | i, (k, v) :: t => do
    let tot ← sumFor ex k v bd
    let rest ← sumPiecesAux ex bd total (i + 1) t
    .ok ((" " ++ decStr tot ++ " " ++ k.toLower) ::
      (if i ≠ total - 1 then [" /"] else []) ++ rest)

/-- The pieces of `State._generate_report` (state.py lines 130-172) in order:
balance lines, a blank line, cross-rate lines, a blank line, `"sum:"` and the
sum pieces.  An uncaught exception from the sum step propagates. -/
def generateReportPieces (man : Ledger) (ex : Exchanger) : Except CurrErr (List String) := do
  let sums ← sumPiecesAux ex man man.length 0 man
  .ok (balanceLines man ++ ["\n"] ++ crossLines ex ++ ["\n"] ++ ["sum:"] ++ sums)

/-- `State._generate_report`: `"".join(strings)` over the pieces. -/
def generate_report (man : Ledger) (ex : Exchanger) : Except CurrErr String :=
  (generateReportPieces man ex).map String.join

/-! ## Association-list lemmas -/

theorem alookup_aupdate_self (m : List (String × Dec)) (k : String) (v : Dec) :
    alookup (aupdate m k v) k = some v := by
  induction m with
  | nil => simp [aupdate, alookup]
  | cons p t ih =>
    obtain ⟨a, w⟩ := p
    by_cases h : a = k
    · subst h; simp [aupdate, alookup]
    · simp [aupdate, alookup, h, ih]

theorem alookup_aupdate_ne (m : List (String × Dec)) (k n : String) (v : Dec)
    (h : k ≠ n) : alookup (aupdate m k v) n = alookup m n := by
  induction m with
  | nil => simp [aupdate, alookup, h]
  | cons p t ih =>
    obtain ⟨a, w⟩ := p
    by_cases ha : a = k
    · subst ha; simp [aupdate, alookup, h]
    · simp [aupdate, alookup, ha, ih]

theorem alookup_mem (m : List (String × Dec)) (n : String) (r : Dec)
    (h : alookup m n = some r) : (n, r) ∈ m := by
  induction m with
  | nil => simp [alookup] at h
  | cons p t ih =>
    obtain ⟨a, w⟩ := p
    by_cases ha : a = n
    · subst ha
      simp [alookup] at h
      simp [h]
    · simp [alookup, ha] at h
      exact List.mem_cons_of_mem _ (ih h)

theorem mem_aupdate (m : List (String × Dec)) (k : String) (v : Dec) :
    ∀ p ∈ aupdate m k v, p = (k, v) ∨ p ∈ m := by
  induction m with
  | nil => simp [aupdate]
  | cons q t ih =>
    obtain ⟨a, w⟩ := q
    by_cases ha : a = k
    · subst ha
      simp only [aupdate, if_pos rfl]
      intro p hp
      rcases List.mem_cons.mp hp with h | h
      · exact .inl h
      · exact .inr (List.mem_cons_of_mem _ h)
    · simp only [aupdate, if_neg ha]
      intro p hp
      rcases List.mem_cons.mp hp with h | h
      · exact .inr (by simp [h])
      · rcases ih p h with h' | h'
        · exact .inl h'
        · exact .inr (List.mem_cons_of_mem _ h')

theorem alookup_eq_none (m : List (String × Dec)) (n : String)
    (h : alookup m n = none) : ∀ p ∈ m, p.1 ≠ n := by
  induction m with
  | nil => simp
  | cons q t ih =>
    obtain ⟨a, w⟩ := q
    by_cases ha : a = n
    · subst ha; simp [alookup] at h
    · simp [alookup, ha] at h
      intro p hp
      rcases List.mem_cons.mp hp with h' | h'
      · simp [h', ha]
      · exact ih h p h'

/-! ## C3 -/

/-- C3: the claim fails on the code at amount `0`.  With a tracked `USD`
balance of `7`, `add_balance("USD", Decimal(0))` and
`remove_balance("USD", Decimal(0))` both return normally (balance still `7`)
instead of failing: the `value <= MIN_AMOUNT` guards at currency.py lines
267-268 and 278-279 construct `InvalidCurrencyValue` but never `raise` it,
and `BaseCurrency.__init__` only rejects strictly negative values. -/
theorem c3_zero_amount_accepted :
    add_balance [("USD", 7)] "USD" 0 = (.ok (), [("USD", 7)]) ∧
    remove_balance [("USD", 7)] "USD" 0 = (.ok (), [("USD", 7)]) := by decide

/-! ## C5 -/

/-- C5: for a tracked currency `n` with (non-negative) balance `b` and any
amount `v > b`, `remove_balance` fails with `InvalidCurrencyOperation` (the
spec's `InsufficientAmount`: the check is re-done and raised inside
`BaseCurrency.__isub__`, currency.py lines 181-191) and the ledger is exactly
unchanged. -/
theorem c5_remove_insufficient (m : Ledger) (n : String) (b v : Dec)
    (hb : alookup m n = some b) (hb0 : 0 ≤ b) (hv : b < v) :
    remove_balance m n v = (.error .invalidOperation, m) := by
  have hv0 : ¬ v < 0 := not_lt.mpr (le_trans hb0 hv.le)
  simp [remove_balance, hb, hv0, hv]

/-- C5 witness: balance `5`, removal of `6`. -/
theorem c5_witness :
    (alookup [("USD", 5)] "USD" = some 5 ∧ (0 : ℚ) ≤ 5 ∧ (5 : ℚ) < 6) ∧
    remove_balance [("USD", 5)] "USD" 6 = (.error .invalidOperation, [("USD", 5)]) :=
  ⟨⟨by decide, by decide, by decide⟩,
    c5_remove_insufficient [("USD", 5)] "USD" 5 6 (by decide) (by decide) (by decide)⟩

/-! ## C8 -/

/-- C8: for a tracked currency `n`, `set_balance` with `v < 0` fails with
`InvalidCurrencyValue` (the spec's `InvalidAmount`, raised by
`BaseCurrency.__init__` before `_set_currency` runs) leaving the ledger
unchanged, while `v ≥ 0` replaces the stored value, after which lookup
returns exactly `v`. -/
theorem c8_set_balance (m : Ledger) (n : String) (b v : Dec)
    (hb : alookup m n = some b) :
    (v < 0 → set_balance m n v = (.error .invalidValue, m)) ∧
    (0 ≤ v → set_balance m n v = (.ok (), aupdate m n v) ∧
      alookup (aupdate m n v) n = some v) := by
  constructor
  · intro hv
    simp [set_balance, hb, hv]
  · intro hv
    refine ⟨?_, alookup_aupdate_self m n v⟩
    simp [set_balance, hb, not_lt.mpr hv]

/-- C8 witness: balance `5`; `set` of `-1` fails unchanged, `set` of `3`
replaces. -/
theorem c8_witness :
    alookup [("USD", 5)] "USD" = some 5 ∧
    (set_balance [("USD", 5)] "USD" (-1) = (.error .invalidValue, [("USD", 5)]) ∧
      set_balance [("USD", 5)] "USD" 3 = (.ok (), aupdate [("USD", 5)] "USD" 3) ∧
      alookup (aupdate [("USD", 5)] "USD" 3) "USD" = some 3) :=
  ⟨by decide,
    (c8_set_balance [("USD", 5)] "USD" 5 (-1) (by decide)).1 (by decide),
    (c8_set_balance [("USD", 5)] "USD" 5 3 (by decide)).2 (by decide)⟩

/-! ## C10 -/

/-- C10: constructing the rate table fails with `UnknownCurrency` whenever
the base name is not a registered currency kind, while `set_rate` (and
`set_rates` with positive rates) accept every currency-name string as an
opaque key, registered or not. -/
theorem c10_base_checked_keys_opaque :
    (∀ base, base ∉ registeredCurrencies → Exchanger.init base = .error .unknownCurrency) ∧
    (∀ ex n r, 0 < r → (set_rate ex n r).1 = .ok ()) ∧
    (∀ ex l, (∀ p ∈ l, 0 < p.2) → (set_rates ex l).1 = .ok ()) := by
  refine ⟨fun base h => by simp [Exchanger.init, h], fun ex n r hr => by
    simp [set_rate, not_le.mpr hr], fun ex l => ?_⟩
  induction l generalizing ex with
  | nil => intro _; rfl
  | cons p t ih =>
    intro h
    obtain ⟨a, w⟩ := p
    have hw : 0 < w := h (a, w) (List.mem_cons_self _ _)
    simp only [set_rates, set_rate, if_neg (not_le.mpr hw)]
    exact ih _ fun q hq => h q (List.mem_cons_of_mem _ hq)

/-- C10 witness: base `GBP` is not registered and is refused; the unregistered
keys `DOGE` and `XYZ` are accepted by `set_rate`/`set_rates`. -/
theorem c10_witness :
    ("GBP" ∉ registeredCurrencies ∧ (0 : ℚ) < 2 ∧
      (∀ p ∈ [("DOGE", (2 : ℚ)), ("XYZ", 3)], 0 < p.2)) ∧
    (Exchanger.init "GBP" = .error .unknownCurrency ∧
      (set_rate ⟨"RUB", [("RUB", 1)]⟩ "DOGE" 2).1 = .ok () ∧
      (set_rates ⟨"RUB", [("RUB", 1)]⟩ [("DOGE", 2), ("XYZ", 3)]).1 = .ok ()) :=
  ⟨⟨by decide, by decide, by decide⟩,
    c10_base_checked_keys_opaque.1 "GBP" (by decide),
    c10_base_checked_keys_opaque.2.1 ⟨"RUB", [("RUB", 1)]⟩ "DOGE" 2 (by decide),
    c10_base_checked_keys_opaque.2.2 ⟨"RUB", [("RUB", 1)]⟩ [("DOGE", 2), ("XYZ", 3)]
      (by decide)⟩

/-! ## C2 -/

/-- C2 counterexample: the claim is false at a concrete batch.  Starting from
a fresh base-`RUB` table, `set_rates({"USD": 2, "EUR": 0, "GBP": 3})` raises
`InvalidExchangeRate` at the `EUR` entry and the loop stops there, so the
later entry `("GBP", 3)` — whose rate `3` is positive — is *not* applied,
contradicting "each entry with a positive rate is applied". -/
theorem c2_counterexample :
    set_rates ⟨"RUB", [("RUB", 1)]⟩ [("USD", 2), ("EUR", 0), ("GBP", 3)] =
      (.error .invalidExchangeRate, ⟨"RUB", [("RUB", 1), ("USD", 2)]⟩) ∧
    get_rate ⟨"RUB", [("RUB", 1), ("USD", 2)]⟩ "GBP" = none ∧ (0 : ℚ) < 3 := by decide

/-- C2 amended: `set_rates` applies entries in mapping order and aborts at the
first entry whose rate is `≤ 0`, raising `InvalidExchangeRate`; the entries
strictly before the failing one are (and stay) applied, the failing entry and
every later one are not — a partial, non-atomic bulk update, not independent
per-entry application. -/
theorem c2_set_rates_stops_at_first_failure (ex : Exchanger)
    (l1 : List (String × Dec)) (n : String) (r : Dec) (l2 : List (String × Dec))
    (h1 : ∀ p ∈ l1, 0 < p.2) (hr : r ≤ 0) :
    (set_rates ex l1).1 = .ok () ∧
    set_rates ex (l1 ++ (n, r) :: l2) =
      (.error .invalidExchangeRate, (set_rates ex l1).2) := by
  induction l1 generalizing ex with
  | nil => simp [set_rates, set_rate, hr]
  | cons p t ih =>
    obtain ⟨a, w⟩ := p
    have hw : 0 < w := h1 (a, w) (List.mem_cons_self _ _)
    simp only [set_rates, set_rate, if_neg (not_le.mpr hw), List.cons_append]
    exact ih _ fun q hq => h1 q (List.mem_cons_of_mem _ hq)

/-- C2 witness: prefix `[("USD", 2)]` applied, failure at `("JPY", 0)`,
suffix `[("CHF", 4)]` dropped. -/
theorem c2_witness :
    ((∀ p ∈ [("USD", (2 : ℚ))], 0 < p.2) ∧ (0 : ℚ) ≤ 0) ∧
    ((set_rates ⟨"RUB", [("RUB", 1)]⟩ [("USD", 2)]).1 = .ok () ∧
      set_rates ⟨"RUB", [("RUB", 1)]⟩ ([("USD", 2)] ++ ("JPY", 0) :: [("CHF", 4)]) =
        (.error .invalidExchangeRate, (set_rates ⟨"RUB", [("RUB", 1)]⟩ [("USD", 2)]).2)) :=
  ⟨⟨by decide, by decide⟩,
    c2_set_rates_stops_at_first_failure ⟨"RUB", [("RUB", 1)]⟩ [("USD", 2)] "JPY" 0
      [("CHF", 4)] (by decide) (by decide)⟩

/-! ## C4 -/

/-- Rate tables reachable from `CurrencyExchanger.__init__` by any sequence
of `set_rate` / `set_rates` calls (including calls that raise: a raising
`set_rate` leaves the table unchanged and a raising `set_rates` leaves its
partial update, so this covers the claim's error-free call sequences). -/
inductive ExReachable : Exchanger → Prop where
  | init : ∀ base ex, Exchanger.init base = .ok ex → ExReachable ex
  | step_rate : ∀ ex n r, ExReachable ex → ExReachable (set_rate ex n r).2
  | step_rates : ∀ ex l, ExReachable ex → ExReachable (set_rates ex l).2

theorem set_rate_invariant (ex : Exchanger) (n : String) (r : Dec)
    (hpos : ∀ p ∈ ex.rates, 0 < p.2) (hbase : ∃ b, alookup ex.rates ex.base = some b) :
    (∀ p ∈ (set_rate ex n r).2.rates, 0 < p.2) ∧
      (∃ b, alookup (set_rate ex n r).2.rates (set_rate ex n r).2.base = some b) := by
  by_cases hr : r ≤ 0
  · have he : (set_rate ex n r).2 = ex := by simp [set_rate, hr]
    rw [he]
    exact ⟨hpos, hbase⟩
  · simp only [set_rate, if_neg hr]
    constructor
    · intro p hp
      rcases mem_aupdate ex.rates n r p hp with h | h
      · rw [h]; exact lt_of_not_le hr
      · exact hpos p h
    · by_cases hb : n = ex.base
      · refine ⟨r, ?_⟩
        rw [← hb]
        exact alookup_aupdate_self ex.rates n r
      · obtain ⟨b, hb'⟩ := hbase
        exact ⟨b, by rw [alookup_aupdate_ne ex.rates n ex.base r hb, hb']⟩

theorem set_rates_invariant (l : List (String × Dec)) (ex : Exchanger)
    (hpos : ∀ p ∈ ex.rates, 0 < p.2) (hbase : ∃ b, alookup ex.rates ex.base = some b) :
    (∀ p ∈ (set_rates ex l).2.rates, 0 < p.2) ∧
      (∃ b, alookup (set_rates ex l).2.rates (set_rates ex l).2.base = some b) := by
  induction l generalizing ex with
  | nil => exact ⟨hpos, hbase⟩
  | cons p t ih =>
    obtain ⟨a, w⟩ := p
    by_cases hw : w ≤ 0
    · have he : (set_rates ex ((a, w) :: t)).2 = ex := by simp [set_rates, set_rate, hw]
      rw [he]
      exact ⟨hpos, hbase⟩
    · have h' := set_rate_invariant ex a w hpos hbase
      simp only [set_rates, set_rate, if_neg hw] at h' ⊢
      exact ih _ h'.1 h'.2

/-- C4 counterexample: the claim's "the base-currency entry equals 1.0 in
every reachable table" is false.  From `CurrencyExchanger("RUB")`, the
single error-free call `set_rate("RUB", Decimal(2))` overwrites the base
entry with `2`: `set_rate` does not protect the base currency. -/
theorem c4_counterexample :
    Exchanger.init "RUB" = .ok ⟨"RUB", [("RUB", 1)]⟩ ∧
    set_rate ⟨"RUB", [("RUB", 1)]⟩ "RUB" 2 = (.ok (), ⟨"RUB", [("RUB", 2)]⟩) ∧
    get_rate ⟨"RUB", [("RUB", 2)]⟩ "RUB" = some 2 ∧ (2 : ℚ) ≠ 1 := by decide

/-- C4 amended: in every rate table reachable from construction by any
sequence of `set_rate` / `set_rates` calls, every stored rate is strictly
positive and the base-currency entry is present (with a strictly positive
rate).  The base entry equals `1.0` at construction, but a later
`set_rate`/`set_rates` naming the base currency may change it to any other
positive rate (see the counterexample). -/
theorem c4_rates_positive_base_present (ex : Exchanger) (h : ExReachable ex) :
    (∀ p ∈ ex.rates, 0 < p.2) ∧
    ∃ r, alookup ex.rates ex.base = some r ∧ 0 < r := by
  have main : (∀ p ∈ ex.rates, 0 < p.2) ∧
      ∃ b, alookup ex.rates ex.base = some b := by
    induction h with
    | init base ex' hinit =>
      by_cases hb : base ∈ registeredCurrencies
      · have hone : ¬ (1 : ℚ) ≤ 0 := by norm_num
        simp only [Exchanger.init, if_pos hb, set_rate, if_neg hone, aupdate,
          Except.ok.injEq] at hinit
        subst hinit
        constructor
        · intro p hp
          simp only [List.mem_singleton] at hp
          rw [hp]
          norm_num
        · exact ⟨1, by simp [alookup]⟩
      · simp [Exchanger.init, if_neg hb] at hinit
    | step_rate ex' n r _ ih => exact set_rate_invariant ex' n r ih.1 ih.2
    | step_rates ex' l _ ih => exact set_rates_invariant l ex' ih.1 ih.2
  obtain ⟨hpos, b, hb⟩ := main
  exact ⟨hpos, b, hb, hpos _ (alookup_mem _ _ _ hb)⟩

/-- C4 witness: the freshly constructed base-`RUB` table. -/
theorem c4_witness :
    ExReachable ⟨"RUB", [("RUB", 1)]⟩ ∧
    ((∀ p ∈ (⟨"RUB", [("RUB", 1)]⟩ : Exchanger).rates, 0 < p.2) ∧
      ∃ r, alookup (⟨"RUB", [("RUB", 1)]⟩ : Exchanger).rates "RUB" = some r ∧ 0 < r) :=
  ⟨ExReachable.init "RUB" _ rfl,
    c4_rates_positive_base_present ⟨"RUB", [("RUB", 1)]⟩ (ExReachable.init "RUB" _ rfl)⟩

/-! ## C6 -/

theorem round28_one : round28 1 = 1 := by decide

/-- C6 counterexample: the reciprocal identity fails under the 28-digit
decimal arithmetic.  With rates `USD → 3` and `EUR → 4`,
`cross_rate(USD, EUR)` is exactly `3/4`, but `cross_rate(EUR, USD)` is
`4/3` rounded to 28 significant digits, and `Decimal(1)` divided by that is
`0.7500000000000000000000000002 ≠ 0.75`. -/
theorem c6_counterexample :
    get_cross_rate_unsafe ⟨"RUB", [("RUB", 1), ("USD", 3), ("EUR", 4)]⟩ "USD" "EUR" =
      .ok (Rat.divInt 3 4) ∧
    get_cross_rate_unsafe ⟨"RUB", [("RUB", 1), ("USD", 3), ("EUR", 4)]⟩ "EUR" "USD" =
      .ok (Rat.divInt 1333333333333333333333333333 (10 ^ 27)) ∧
    ddiv 1 (Rat.divInt 1333333333333333333333333333 (10 ^ 27)) ≠ Rat.divInt 3 4 := by
  refine ⟨by decide, by decide, by decide⟩

/-- C6 amended: `cross_rate(base, base)` is exactly `1.0` whenever the base
rate is present and positive (as it always is, see C4); and
`cross_rate(a, b) == 1 / cross_rate(b, a)` holds whenever the two exact
quotients need no rounding (fit in 28 significant digits) — but not in
general, because each `Decimal` division rounds (see the counterexample). -/
theorem c6_cross_rate_properties :
    (∀ ex r, get_rate ex ex.base = some r → 0 < r →
      get_cross_rate_unsafe ex ex.base ex.base = .ok 1) ∧
    (∀ ex a b ra rb, get_rate ex a = some ra → get_rate ex b = some rb →
      0 < ra → 0 < rb →
      round28 (ra / rb) = ra / rb → round28 (rb / ra) = rb / ra →
      get_cross_rate_unsafe ex a b = .ok (ra / rb) ∧
      get_cross_rate_unsafe ex b a = .ok (rb / ra) ∧
      ddiv 1 (rb / ra) = ra / rb) := by
  constructor
  · intro ex r h hr
    have hr0 : r ≠ 0 := ne_of_gt hr
    simp only [ get_cross_rate_unsafe, get_rate_unsafe, h, except_ok_bind, if_neg hr0]
    rw [ddiv_eq, div_self hr0, round28_one]
  · intro ex a b ra rb ha hb hra hrb hab hba
    have hra0 : ra ≠ 0 := ne_of_gt hra
    have hrb0 : rb ≠ 0 := ne_of_gt hrb
    refine ⟨?_, ?_, ?_⟩
    · simp only [ get_cross_rate_unsafe, get_rate_unsafe, ha, hb, except_ok_bind, if_neg hrb0]
      rw [ddiv_eq, hab]
    · simp only [ get_cross_rate_unsafe, get_rate_unsafe, ha, hb, except_ok_bind, if_neg hra0]
      rw [ddiv_eq, hba]
    · rw [ddiv_eq, one_div_div, hab]

/-- C6 witness: rates `RUB → 1`, `USD → 2`; both quotients `1/2` and `2` are
exact at 28 digits. -/
theorem c6_witness :
    (get_rate ⟨"RUB", [("RUB", 1), ("USD", 2)]⟩ "RUB" = some 1 ∧ (0 : ℚ) < 1 ∧
      (0 : ℚ) < 2 ∧ round28 ((1 : ℚ) / 2) = (1 : ℚ) / 2 ∧
      round28 ((2 : ℚ) / 1) = (2 : ℚ) / 1) ∧
    ( get_cross_rate_unsafe ⟨"RUB", [("RUB", 1), ("USD", 2)]⟩ "RUB" "RUB" = .ok 1 ∧
      ( get_cross_rate_unsafe ⟨"RUB", [("RUB", 1), ("USD", 2)]⟩ "RUB" "USD" =
          .ok ((1 : ℚ) / 2) ∧
        get_cross_rate_unsafe ⟨"RUB", [("RUB", 1), ("USD", 2)]⟩ "USD" "RUB" =
          .ok ((2 : ℚ) / 1) ∧
        ddiv 1 ((2 : ℚ) / 1) = (1 : ℚ) / 2)) := by
  have e12 : (1 : ℚ) / 2 = Rat.divInt 1 2 := by
    rw [Rat.divInt_eq_div]; norm_num
  have e21 : (2 : ℚ) / 1 = Rat.divInt 2 1 := by
    rw [Rat.divInt_eq_div]; norm_num
  have h12 : round28 ((1 : ℚ) / 2) = (1 : ℚ) / 2 := by rw [e12]; decide
  have h21 : round28 ((2 : ℚ) / 1) = (2 : ℚ) / 1 := by rw [e21]; decide
  exact ⟨⟨by decide, by decide, by decide, h12, h21⟩,
    c6_cross_rate_properties.1 ⟨"RUB", [("RUB", 1), ("USD", 2)]⟩ 1 (by decide) (by decide),
    c6_cross_rate_properties.2 ⟨"RUB", [("RUB", 1), ("USD", 2)]⟩ "RUB" "USD" 1 2
      (by decide) (by decide) (by decide) (by decide) h12 h21⟩

/-! ## C7 -/

/-- C7 counterexample: the round trip is not exact in general.  With a stored
`USD` balance of `Decimal("1E+28")`, `add("USD", 1)` rounds the 29-digit sum
back to `10^28` (the default context keeps 28 significant digits), and the
following `remove("USD", 1)` then leaves `10^28 - 1 ≠ 10^28`. -/
theorem c7_counterexample :
    (add_balance [("USD", Rat.divInt (10 ^ 28) 1)] "USD" 1).1 = .ok () ∧
    (add_balance [("USD", Rat.divInt (10 ^ 28) 1)] "USD" 1).2 =
      [("USD", Rat.divInt (10 ^ 28) 1)] ∧
    remove_balance [("USD", Rat.divInt (10 ^ 28) 1)] "USD" 1 =
      (.ok (), [("USD", Rat.divInt (10 ^ 28 - 1) 1)]) ∧
    Rat.divInt (10 ^ 28 - 1) 1 ≠ Rat.divInt (10 ^ 28) 1 := by
  refine ⟨by decide, by decide, by decide, by decide⟩

/-- C7 amended: `add(n, v)` followed by `remove(n, v)` restores the prior
balance `b` exactly and never touches any other currency, *provided* the
intermediate sum `b + v` and the stored balance `b` are exact at 28
significant digits (no context rounding occurs); without that proviso the
round trip can end one unit off (see the counterexample). -/
theorem c7_add_remove_round_trip (m : Ledger) (n : String) (b v : Dec)
    (hb : alookup m n = some b) (hb0 : 0 ≤ b) (hv : 0 < v)
    (hex1 : round28 (b + v) = b + v) (hex2 : round28 b = b) :
    (add_balance m n v).1 = .ok () ∧
    (remove_balance (add_balance m n v).2 n v).1 = .ok () ∧
    alookup (remove_balance (add_balance m n v).2 n v).2 n = some b ∧
    ∀ k, k ≠ n →
      alookup (add_balance m n v).2 k = alookup m k ∧
      alookup (remove_balance (add_balance m n v).2 n v).2 k = alookup m k := by
  have hvn : ¬ v < 0 := not_lt.mpr hv.le
  have hadd : add_balance m n v = (.ok (), aupdate m n (b + v)) := by
    rw [add_balance, hb]
    simp only [if_neg hvn, dadd_eq, hex1]
  have hsub : b + v - v = b := by ring
  have hrem : remove_balance (aupdate m n (b + v)) n v = (.ok (), aupdate (aupdate m n (b + v)) n b) := by
    rw [remove_balance, alookup_aupdate_self]
    have hlt : ¬ b + v < v := not_lt.mpr (by linarith)
    simp only [if_neg hvn, if_neg hlt, dsub_eq, hsub, hex2]
  rw [hadd]
  simp only [hrem]
  refine ⟨trivial, trivial, alookup_aupdate_self _ _ _, ?_⟩
  intro k hk
  have hnk : n ≠ k := hk.symm
  constructor
  · exact alookup_aupdate_ne m n k (b + v) hnk
  · rw [alookup_aupdate_ne _ n k b hnk, alookup_aupdate_ne m n k (b + v) hnk]

/-- C7 witness: balance `5`, round-trip amount `3`. -/
theorem c7_witness :
    (alookup [("USD", 5), ("RUB", 9)] "USD" = some 5 ∧ (0 : ℚ) ≤ 5 ∧ (0 : ℚ) < 3 ∧
      round28 ((5 : ℚ) + 3) = (5 : ℚ) + 3 ∧ round28 (5 : ℚ) = 5) ∧
    ((add_balance [("USD", 5), ("RUB", 9)] "USD" 3).1 = .ok () ∧
      (remove_balance (add_balance [("USD", 5), ("RUB", 9)] "USD" 3).2 "USD" 3).1 = .ok () ∧
      alookup (remove_balance (add_balance [("USD", 5), ("RUB", 9)] "USD" 3).2 "USD" 3).2
        "USD" = some 5 ∧
      ∀ k, k ≠ "USD" →
        alookup (add_balance [("USD", 5), ("RUB", 9)] "USD" 3).2 k =
          alookup [("USD", 5), ("RUB", 9)] k ∧
        alookup (remove_balance (add_balance [("USD", 5), ("RUB", 9)] "USD" 3).2 "USD" 3).2
          k = alookup [("USD", 5), ("RUB", 9)] k) := by
  have h53 : round28 ((5 : ℚ) + 3) = (5 : ℚ) + 3 := by
    have : (5 : ℚ) + 3 = 8 := by norm_num
    rw [this]; decide
  exact ⟨⟨by decide, by decide, by decide, h53, by decide⟩,
    c7_add_remove_round_trip [("USD", 5), ("RUB", 9)] "USD" 5 3 (by decide) (by decide)
      (by decide) h53 (by decide)⟩

/-! ## C9 -/

theorem multiApply_partial (f : Ledger → String → Dec → Except CurrErr Unit × Ledger)
    (l1 : List (String × Dec)) (st : Ledger) (n : String) (v : Dec)
    (rest : List (String × Dec)) (e : CurrErr)
    (h1 : (multiApply f st l1).1 = .ok ())
    (h2 : (f (multiApply f st l1).2 n v).1 = .error e) :
    multiApply f st (l1 ++ (n, v) :: rest) =
      (.error e, (f (multiApply f st l1).2 n v).2) := by
  induction l1 generalizing st with
  | nil =>
    simp only [multiApply] at h2 ⊢
    rcases hf : f st n v with ⟨r, s⟩
    rw [hf] at h2
    simp only at h2
    subst h2
    simp only [List.nil_append, multiApply, hf]
  | cons p t ih =>
    obtain ⟨a, w⟩ := p
    rcases hf : f st a w with ⟨r, s⟩
    cases r with
    | error e' =>
      rw [show multiApply f st ((a, w) :: t) = (.error e', s) by
        simp only [multiApply, hf]] at h1
      simp at h1
    | ok u =>
      have hstep : multiApply f st ((a, w) :: t) = multiApply f s t := by
        simp only [multiApply, hf]
      rw [hstep] at h1 h2
      have hgoal : multiApply f st (((a, w) :: t) ++ (n, v) :: rest) =
          multiApply f s (t ++ (n, v) :: rest) := by
        simp only [List.cons_append, multiApply, hf, List.append_eq]
      rw [hgoal, hstep]
      exact ih s h1 h2

theorem set_balance_error_unchanged (m : Ledger) (n : String) (v : Dec) (e : CurrErr)
    (h : (set_balance m n v).1 = .error e) : (set_balance m n v).2 = m := by
  rcases halk : alookup m n with _ | b
  · simp [set_balance, halk]
  · by_cases hv : v < 0
    · simp [set_balance, halk, hv]
    · simp [set_balance, halk, hv] at h

theorem add_balance_error_unchanged (m : Ledger) (n : String) (v : Dec) (e : CurrErr)
    (h : (add_balance m n v).1 = .error e) : (add_balance m n v).2 = m := by
  rcases halk : alookup m n with _ | b
  · simp [add_balance, halk]
  · by_cases hv : v < 0
    · simp [add_balance, halk, hv]
    · simp [add_balance, halk, hv] at h

theorem remove_balance_error_unchanged (m : Ledger) (n : String) (v : Dec) (e : CurrErr)
    (h : (remove_balance m n v).1 = .error e) : (remove_balance m n v).2 = m := by
  rcases halk : alookup m n with _ | b
  · simp [remove_balance, halk]
  · by_cases hv : v < 0
    · simp [remove_balance, halk, hv]
    · by_cases hb : b < v
      · simp [remove_balance, halk, hv, hb]
      · simp [remove_balance, halk, hv, hb] at h

/-- C9: `set_balance_multi`, `add_balance_multi` and `remove_balance_multi`
apply their entries one at a time in mapping order and stop at the first
failing entry: if every entry of the prefix `l1` succeeds and the next entry
`(n, v)` fails, the whole call raises that entry\'s error with the ledger
left exactly as it was after applying `l1` — a partial, non-atomic update
(the failing call itself does not change the ledger, and the remaining
entries are never applied). -/
theorem c9_multi_ops_stop_at_first_failure :
    (∀ st l1 n v rest e,
      (multiApply set_balance st l1).1 = .ok () →
      (set_balance (multiApply set_balance st l1).2 n v).1 = .error e →
      set_balance_multi st (l1 ++ (n, v) :: rest) =
        (.error e, (multiApply set_balance st l1).2)) ∧
    (∀ st l1 n v rest e,
      (multiApply add_balance st l1).1 = .ok () →
      (add_balance (multiApply add_balance st l1).2 n v).1 = .error e →
      add_balance_multi st (l1 ++ (n, v) :: rest) =
        (.error e, (multiApply add_balance st l1).2)) ∧
    (∀ st l1 n v rest e,
      (multiApply remove_balance st l1).1 = .ok () →
      (remove_balance (multiApply remove_balance st l1).2 n v).1 = .error e →
      remove_balance_multi st (l1 ++ (n, v) :: rest) =
        (.error e, (multiApply remove_balance st l1).2)) := by
  refine ⟨fun st l1 n v rest e h1 h2 => ?_, fun st l1 n v rest e h1 h2 => ?_,
    fun st l1 n v rest e h1 h2 => ?_⟩
  · rw [set_balance_multi, multiApply_partial set_balance l1 st n v rest e h1 h2,
      set_balance_error_unchanged _ n v e h2]
  · rw [add_balance_multi, multiApply_partial add_balance l1 st n v rest e h1 h2,
      add_balance_error_unchanged _ n v e h2]
  · rw [remove_balance_multi, multiApply_partial remove_balance l1 st n v rest e h1 h2,
      remove_balance_error_unchanged _ n v e h2]

/-- C9 witness: ledger `{RUB: 5, USD: 5}`; each bulk call applies its first
entry, fails on its second, and never reaches its third. -/
theorem c9_witness :
    ((multiApply set_balance [("RUB", 5), ("USD", 5)] [("RUB", 1)]).1 = .ok () ∧
      (set_balance (multiApply set_balance [("RUB", 5), ("USD", 5)] [("RUB", 1)]).2
        "USD" (-1)).1 = .error .invalidValue ∧
      (multiApply add_balance [("RUB", 5), ("USD", 5)] [("RUB", 1)]).1 = .ok () ∧
      (add_balance (multiApply add_balance [("RUB", 5), ("USD", 5)] [("RUB", 1)]).2
        "USD" (-2)).1 = .error .invalidValue ∧
      (multiApply remove_balance [("RUB", 5), ("USD", 5)] [("RUB", 1)]).1 = .ok () ∧
      (remove_balance (multiApply remove_balance [("RUB", 5), ("USD", 5)] [("RUB", 1)]).2
        "USD" 7).1 = .error .invalidOperation) ∧
    (set_balance_multi [("RUB", 5), ("USD", 5)] ([("RUB", 1)] ++ ("USD", -1) :: [("EUR", 2)]) =
        (.error .invalidValue, (multiApply set_balance [("RUB", 5), ("USD", 5)] [("RUB", 1)]).2) ∧
      add_balance_multi [("RUB", 5), ("USD", 5)] ([("RUB", 1)] ++ ("USD", -2) :: [("EUR", 2)]) =
        (.error .invalidValue, (multiApply add_balance [("RUB", 5), ("USD", 5)] [("RUB", 1)]).2) ∧
      remove_balance_multi [("RUB", 5), ("USD", 5)] ([("RUB", 1)] ++ ("USD", 7) :: [("EUR", 2)]) =
        (.error .invalidOperation, (multiApply remove_balance [("RUB", 5), ("USD", 5)] [("RUB", 1)]).2)) :=
  ⟨⟨by decide, by decide, by decide, by decide, by decide, by decide⟩,
    c9_multi_ops_stop_at_first_failure.1 [("RUB", 5), ("USD", 5)] [("RUB", 1)] "USD" (-1)
      [("EUR", 2)] .invalidValue (by decide) (by decide),
    c9_multi_ops_stop_at_first_failure.2.1 [("RUB", 5), ("USD", 5)] [("RUB", 1)] "USD" (-2)
      [("EUR", 2)] .invalidValue (by decide) (by decide),
    c9_multi_ops_stop_at_first_failure.2.2 [("RUB", 5), ("USD", 5)] [("RUB", 1)] "USD" 7
      [("EUR", 2)] .invalidOperation (by decide) (by decide)⟩

/-! ## C1 -/

theorem exchange_missing_of_no_rate (ex : Exchanger) (kk : String) (vv : Dec)
    (k : String) (hv : 0 ≤ vv) (hk : get_rate ex kk = none) :
    exchange ex kk vv k = .error .missingExchangeRate := by
  simp [exchange, not_lt.mpr hv, get_cross_rate_unsafe, get_rate_unsafe, hk,
    except_error_bind]

theorem exchange_ok_or_missing (ex : Exchanger) (kk : String) (vv : Dec) (k : String)
    (hv : 0 ≤ vv) (hr : ∀ p ∈ ex.rates, 0 < p.2) :
    exchange ex kk vv k = .error .missingExchangeRate ∨
      ∃ d, exchange ex kk vv k = .ok d := by
  rcases ha : get_rate ex kk with _ | ra
  · exact .inl (exchange_missing_of_no_rate ex kk vv k hv ha)
  · rcases hbk : get_rate ex k with _ | rb
    · refine .inl ?_
      simp [exchange, not_lt.mpr hv, get_cross_rate_unsafe, get_rate_unsafe, ha, hbk,
        except_ok_bind, except_error_bind]
    · have hrb : 0 < rb := hr (k, rb) (alookup_mem ex.rates k rb hbk)
      refine .inr ⟨dmul vv (ddiv ra rb), ?_⟩
      simp [exchange, not_lt.mpr hv, get_cross_rate_unsafe, get_rate_unsafe, ha, hbk,
        except_ok_bind, if_neg (ne_of_gt hrb)]

theorem sumFor_isOk (ex : Exchanger) (k : String) (l : Ledger)
    (hb : ∀ p ∈ l, 0 ≤ p.2) (hr : ∀ p ∈ ex.rates, 0 < p.2) :
    ∀ v, ∃ d, sumFor ex k v l = .ok d := by
  induction l with
  | nil => exact fun v => ⟨v, rfl⟩
  | cons p t ih =>
    obtain ⟨kk, vv⟩ := p
    have hvv : 0 ≤ vv := hb (kk, vv) (List.mem_cons_self _ _)
    have ht : ∀ p ∈ t, 0 ≤ p.2 := fun q hq => hb q (List.mem_cons_of_mem _ hq)
    intro v
    by_cases hkk : kk = k
    · simp only [sumFor, if_pos hkk]
      exact ih ht v
    · rcases exchange_ok_or_missing ex kk vv k hvv hr with h | ⟨d, h⟩
      · simp only [sumFor, if_neg hkk, h]
        exact ih ht v
      · simp only [sumFor, if_neg hkk, h]
        exact ih ht (dadd v d)

theorem sumPiecesAux_isOk (ex : Exchanger) (bd : Ledger) (total : ℕ)
    (hb : ∀ p ∈ bd, 0 ≤ p.2) (hr : ∀ p ∈ ex.rates, 0 < p.2) (l : Ledger)
    (hl : ∀ p ∈ l, 0 ≤ p.2) :
    ∀ i, ∃ ps, sumPiecesAux ex bd total i l = .ok ps := by
  induction l with
  | nil => exact fun i => ⟨[], rfl⟩
  | cons p t ih =>
    obtain ⟨k, v⟩ := p
    intro i
    obtain ⟨d, hd⟩ := sumFor_isOk ex k bd hb hr v
    obtain ⟨ps, hps⟩ := ih (fun q hq => hl q (List.mem_cons_of_mem _ hq)) (i + 1)
    simp only [sumPiecesAux, hd, hps, except_ok_bind]
    exact ⟨_, rfl⟩

theorem sumFor_skips_unrated (ex : Exchanger) (k n : String) (l : Ledger)
    (hb : ∀ p ∈ l, 0 ≤ p.2) (hn : get_rate ex n = none) (hk : k ≠ n) :
    ∀ v, sumFor ex k v l = sumFor ex k v (l.filter (fun p => p.1 != n)) := by
  induction l with
  | nil => intro v; rfl
  | cons p t ih =>
    obtain ⟨kk, vv⟩ := p
    have hvv : 0 ≤ vv := hb (kk, vv) (List.mem_cons_self _ _)
    have ht : ∀ p ∈ t, 0 ≤ p.2 := fun q hq => hb q (List.mem_cons_of_mem _ hq)
    intro v
    by_cases hkkn : kk = n
    · have hkkk : ¬ kk = k := by
        rw [hkkn]
        exact Ne.symm hk
      have hnk : get_rate ex kk = none := by
        rw [hkkn]
        exact hn
      have hfil : ((kk, vv) :: t).filter (fun p => p.1 != n) =
          t.filter (fun p => p.1 != n) := by
        simp [List.filter_cons, hkkn]
      rw [hfil]
      simp only [sumFor, if_neg hkkk,
        exchange_missing_of_no_rate ex kk vv k hvv hnk]
      exact ih ht v
    · have hfil : ((kk, vv) :: t).filter (fun p => p.1 != n) =
          (kk, vv) :: t.filter (fun p => p.1 != n) := by
        simp [List.filter_cons, hkkn]
      rw [hfil]
      by_cases hkkk : kk = k
      · simp only [sumFor, if_pos hkkk]
        exact ih ht v
      · cases hex : exchange ex kk vv k with
        | ok d =>
          simp only [sumFor, if_neg hkkk, hex]
          exact ih ht (dadd v d)
        | error e =>
          cases e
          all_goals simp only [sumFor, if_neg hkkk, hex]
          all_goals exact ih ht v

/-- C1: for every ledger snapshot (all balances non-negative, as the ledger
guarantees) and every rate-table snapshot (all rates positive, as the table
guarantees), `State._generate_report` returns a report string without
raising; and for any currency `n` that is tracked in the ledger with balance
`b` but has no entry in the rate table: its `name: amount` balance line is
still emitted, no cross-rate pair mentions `n` on either side, and every
currency\'s sum is computed exactly as if `n`\'s entry were absent from the
ledger (its conversion terms are swallowed `MissingExchangeRate`s). -/
theorem c1_generate_report_never_fails (man : Ledger) (ex : Exchanger)
    (hb : ∀ p ∈ man, 0 ≤ p.2) (hr : ∀ p ∈ ex.rates, 0 < p.2) :
    (∃ s, generate_report man ex = .ok s) ∧
    ∀ n b, alookup man n = some b → get_rate ex n = none →
      balanceLine n b ∈ balanceLines man ∧
      (∀ e ∈ get_all_cross_rate ex, e.1.1 ≠ n ∧ e.1.2 ≠ n) ∧
      (∀ k v, k ≠ n →
        sumFor ex k v man = sumFor ex k v (man.filter (fun p => p.1 != n))) := by
  constructor
  · obtain ⟨ps, hps⟩ := sumPiecesAux_isOk ex man man.length hb hr man hb 0
    simp only [generate_report, generateReportPieces, hps, except_ok_bind, Except.map]
    exact ⟨_, rfl⟩
  · intro n b hmem hnone
    refine ⟨?_, ?_, ?_⟩
    · have hm : (n, b) ∈ man := alookup_mem man n b hmem
      exact List.mem_map_of_mem (fun p => balanceLine p.1 p.2) hm
    · intro e he
      have hkeys := alookup_eq_none ex.rates n hnone
      simp only [get_all_cross_rate, List.mem_flatMap] at he
      obtain ⟨p, hp, he⟩ := he
      simp only [List.mem_filterMap] at he
      obtain ⟨q, hq, he⟩ := he
      by_cases hpq : p.1 ≠ q.1
      · rw [if_pos hpq] at he
        cases he
        exact ⟨hkeys p hp, hkeys q hq⟩
      · rw [if_neg hpq] at he
        cases he
    · intro k v hk
      exact sumFor_skips_unrated ex k n man hb hnone hk v

/-- C1 witness: the spec\'s missing-rate scenario — `EUR` tracked with balance
`5` but absent from the rate table `{RUB: 1, USD: 90}`. -/
theorem c1_witness :
    ((∀ p ∈ [("RUB", (100 : ℚ)), ("USD", 10), ("EUR", 5)], 0 ≤ p.2) ∧
      (∀ p ∈ [("RUB", (1 : ℚ)), ("USD", 90)], 0 < p.2)) ∧
    ((∃ s, generate_report [("RUB", 100), ("USD", 10), ("EUR", 5)]
        ⟨"RUB", [("RUB", 1), ("USD", 90)]⟩ = .ok s) ∧
      ∀ n b, alookup [("RUB", 100), ("USD", 10), ("EUR", 5)] n = some b →
        get_rate ⟨"RUB", [("RUB", 1), ("USD", 90)]⟩ n = none →
        balanceLine n b ∈ balanceLines [("RUB", 100), ("USD", 10), ("EUR", 5)] ∧
        (∀ e ∈ get_all_cross_rate ⟨"RUB", [("RUB", 1), ("USD", 90)]⟩,
          e.1.1 ≠ n ∧ e.1.2 ≠ n) ∧
        (∀ k v, k ≠ n →
          sumFor ⟨"RUB", [("RUB", 1), ("USD", 90)]⟩ k v
              [("RUB", 100), ("USD", 10), ("EUR", 5)] =
            sumFor ⟨"RUB", [("RUB", 1), ("USD", 90)]⟩ k v
              ([("RUB", 100), ("USD", 10), ("EUR", 5)].filter (fun p => p.1 != n)))) :=
  ⟨⟨by decide, by decide⟩,
    c1_generate_report_never_fails [("RUB", 100), ("USD", 10), ("EUR", 5)]
      ⟨"RUB", [("RUB", 1), ("USD", 90)]⟩ (by decide) (by decide)⟩

end CurrencyService
